import Mathlib

set_option maxRecDepth 100000

/-!
Verification development for the Thyself harvesting / storage pipeline.

The definitions below are a shallow embedding of the JavaScript/TypeScript
sources:
  * `extension/background.js` — title store (dedup + retention), profile
    store, archive store, message router;
  * `extension/content.js`    — duration-suffix stripping of harvested titles;
  * `extension/bridge.js` and `web/lib/bridge.ts` — the relay / direct
    transport selection.

Modelling conventions:
  * JS strings are modelled as `List Char` of their UTF-16 code units; all
    strings in this development lie in the Basic Multilingual Plane, where a
    UTF-16 code unit is exactly one code point (`Char.toNat`).
  * JS numbers that hold epoch milliseconds are `Nat`; where the source does
    arithmetic that can go negative (the retention cut-off) we compute in
    `Int`, matching JS number semantics on these ranges.
  * JS falsiness of `0`, `""`, `undefined`/`null` is modelled explicitly by
    the `jsOr*` helpers.
  * 32-bit wrap-around (`|= 0`, `>>> 0` in the djb2 hash) is `% 2^32`.
-/

namespace Thyself

/-- JS `a || b` for numbers where `a = 0` is falsy (`0 || b = b`). -/
def jsOrNat (a b : Nat) : Nat := if a = 0 then b else a

/-- JS `a || b` for strings where the empty string is falsy. -/
def jsOrStr (a b : String) : String := if a = "" then b else a

/-- JS `a || b` where `a` may be `undefined`/`null` (`none`) or empty (falsy). -/
def jsOrOpt (a : Option String) (b : String) : String :=
  match a with
  | some s => if s = "" then b else s
  | none => b

/-- The JS `\s` character class (also the set trimmed by `String.prototype.trim`):
space, tab, LF, VT, FF, CR, NBSP, and the Unicode space separators. -/
def isJsWs (c : Char) : Bool :=
  let n := c.toNat
  n = 0x20 || n = 0x9 || n = 0xA || n = 0xB || n = 0xC || n = 0xD ||
  n = 0xA0 || n = 0x1680 || (0x2000 ≤ n && n ≤ 0x200A) || n = 0x2028 ||
  n = 0x2029 || n = 0x202F || n = 0x205F || n = 0x3000 || n = 0xFEFF

/-- JS `String.prototype.toLowerCase`, restricted to the characters occurring
in this development (ASCII letters and the Latin-1 uppercase range); identity
on every other character. -/
def toLowerChar (c : Char) : Char :=
  let n := c.toNat
  if 0x41 ≤ n ∧ n ≤ 0x5A then Char.ofNat (n + 32)
  else if (0xC0 ≤ n ∧ n ≤ 0xDE) ∧ n ≠ 0xD7 then Char.ofNat (n + 32)
  else c

/-- Unicode NFKD decomposition (`String.prototype.normalize('NFKD')` in
`background.js`), restricted to the characters exercised in this development;
identity on every other character.  NFKD applies canonical *and* compatibility
decompositions: `é` decomposes canonically, while the ligature `ﬁ` (U+FB01)
and the circled digit `①` (U+2460) decompose only under compatibility. -/
def nfkdChar (c : Char) : List Char :=
  let n := c.toNat
  if n = 0xE9 then [Char.ofNat 0x65, Char.ofNat 0x301]
  else if n = 0xE8 then [Char.ofNat 0x65, Char.ofNat 0x300]
  else if n = 0xFC then [Char.ofNat 0x75, Char.ofNat 0x308]
  else if n = 0xF1 then [Char.ofNat 0x6E, Char.ofNat 0x303]
  else if n = 0xFB01 then [Char.ofNat 0x66, Char.ofNat 0x69]
  else if n = 0x2460 then [Char.ofNat 0x31]
  else [c]

/-- Unicode *canonical* decomposition (NFD), the decomposition named by the
specification, on the same restricted character set: identical to `nfkdChar`
on canonical decompositions but the identity on compatibility-only characters
such as U+FB01 and U+2460. -/
def nfdChar (c : Char) : List Char :=
  let n := c.toNat
  if n = 0xE9 then [Char.ofNat 0x65, Char.ofNat 0x301]
  else if n = 0xE8 then [Char.ofNat 0x65, Char.ofNat 0x300]
  else if n = 0xFC then [Char.ofNat 0x75, Char.ofNat 0x308]
  else if n = 0xF1 then [Char.ofNat 0x6E, Char.ofNat 0x303]
  else [c]

/-- Model of `.replace(/[̀-ͯ]/g, '')` — strip combining diacritical marks. -/
def stripDiacritics (l : List Char) : List Char :=
  l.filter (fun c => !(0x300 ≤ c.toNat && c.toNat ≤ 0x36F))

/-- Worker for `collapseWs`: `prevWs` records whether the previous character
was part of a whitespace run already replaced by a single space. -/
def collapseWsGo : Bool → List Char → List Char
  | _, [] => []
  | prevWs, c :: rest =>
    if isJsWs c then
      if prevWs then collapseWsGo true rest
      else Char.ofNat 0x20 :: collapseWsGo true rest
    else c :: collapseWsGo false rest

/-- Model of `.replace(/[\s\t\n\r]+/g, ' ')` — collapse every whitespace run to one
space (the character class is just `\s`; `\t\n\r` are redundant in it). -/
def collapseWs (l : List Char) : List Char := collapseWsGo false l

/-- Model of `.replace(/["'`]+/g, '')` — strip double quotes (U+0022), apostrophes
(U+0027) and backticks (U+0060). -/
def stripQuotes (l : List Char) : List Char :=
  l.filter (fun c => !(c.toNat = 0x22 || c.toNat = 0x27 || c.toNat = 0x60))

/-- JS `String.prototype.trim()`: drop leading and trailing `\s` characters. -/
def trimChars (l : List Char) : List Char :=
  ((l.dropWhile isJsWs).reverse.dropWhile isJsWs).reverse

/-- Function `normalizeTitle` from `background.js`: lowercase, NFKD-normalize, strip
diacritics, collapse whitespace runs, strip quote characters, trim. -/
def normalizeTitle (t : List Char) : List Char :=
  trimChars (stripQuotes (collapseWs (stripDiacritics
    ((t.map toLowerChar).flatMap nfkdChar))))

/-- The normalization pipeline as worded by the specification: identical
steps, but with Unicode *canonical* decomposition (NFD) in place of the
code's compatibility decomposition (NFKD). -/
def normalizeTitleSpecCanonical (t : List Char) : List Char :=
  trimChars (stripQuotes (collapseWs (stripDiacritics
    ((t.map toLowerChar).flatMap nfdChar))))

/-- The normalization pipeline as worded by the amended specification:
lowercase, Unicode compatibility decomposition (NFKD) with diacritic
stripping, collapse whitespace runs to single spaces, strip quote
characters, trim. -/
def normalizeTitleSpecNFKD (t : List Char) : List Char :=
  trimChars (stripQuotes (collapseWs (stripDiacritics
    ((t.map toLowerChar).flatMap nfkdChar))))

/-- The djb2 accumulator loop of `hashStr`: `h = ((h << 5) + h) + c` with
`h |= 0` each round and `h >>> 0` at the end keeps the value modulo 2^32,
so the loop is `h ↦ (33*h + c) mod 2^32` starting from 5381. -/
def djb2 (s : List Char) : Nat :=
  s.foldl (fun h c => (h * 33 + c.toNat) % 4294967296) 5381

/-- Function `hashStr` from `background.js`: djb2 of the string, formatted as
unsigned lowercase hex (`(h >>> 0).toString(16)`). -/
def hashStr (s : List Char) : String := String.mk (Nat.toDigits 16 (djb2 s))

/-- Storage constant `BATCH_RETENTION_DAYS = 14` (rolling window). -/
def BATCH_RETENTION_DAYS : Nat := 14

/-- Storage constant `ARCHIVE_MAX = 365`. -/
def ARCHIVE_MAX : Nat := 365

/-- Retention cut-off `keepAfter = now - BATCH_RETENTION_DAYS*24*60*60*1000`,
computed in `Int` because it is negative for small `now`. -/
def keepAfterI (now : Nat) : Int :=
  (now : Int) - (BATCH_RETENTION_DAYS : Int) * 24 * 60 * 60 * 1000

/-- Event type vocabulary accepted by the sanitizer (`ALLOWED_TYPES`). -/
inductive EvType where
  | feed_video
  | shorts_video
deriving DecidableEq, Repr

/-- Sanitized event (`sanitizeEvent`'s output shape). -/
structure Event where
  ts : Nat
  type : EvType
  title : List Char
  videoId : Option String
  href : Option String
  page : Option String
  platform : String
deriving DecidableEq, Repr

/-- Raw message payload as received by `sanitizeEvent` (`ts = 0` models a
missing/zero — hence falsy — timestamp). -/
structure RawPayload where
  type : Option String
  title : Option (List Char)
  ts : Nat
  videoId : Option String
  href : Option String
  page : Option String
  platform : Option String
deriving DecidableEq, Repr

/-- Function `sanitizeEvent` from `background.js`: reject non-whitelisted
types and empty trimmed titles; default `ts` to now and `platform` to
youtube. -/
def sanitizeEvent (now : Nat) (p : RawPayload) : Option Event :=
  if p.type = some "feed_video" ∨ p.type = some "shorts_video" then
    let title := trimChars (p.title.getD [])
    if title = [] then none
    else some
      { ts := jsOrNat p.ts now
        type := if p.type = some "feed_video" then .feed_video else .shorts_video
        title := title
        videoId := p.videoId
        href := p.href
        page := p.page
        platform := jsOrOpt p.platform "youtube" }
  else none

/-- One `titles_batch` entry: `{ id, title, ts, platform }`. -/
structure TitleEntry where
  id : String
  title : List Char
  ts : Nat
  platform : String
deriving DecidableEq, Repr

/-- The refresh loop of `updateTitlesBatchFromEvent`: walk `cleaned` and, at
the first entry whose id matches, set `ts := max(entry.ts || 0, tsNew)`;
report in the second component whether a match was found (`exists`). -/
def refreshTs (tsNew : Nat) (id : String) : List TitleEntry → List TitleEntry × Bool
  | [] => ([], false)
  | x :: xs =>
    if x.id = id then ({ x with ts := max (jsOrNat x.ts 0) tsNew } :: xs, true)
    else
      let r := refreshTs tsNew id xs
      (x :: r.1, r.2)

/-- The entry appended by `updateTitlesBatchFromEvent` when no existing id
matches: `{ id, title: evt.title, ts: evt.ts || now, platform: evt.platform
|| 'youtube' }`. -/
def newTitleEntry (now : Nat) (evt : Event) : TitleEntry :=
  { id := hashStr (normalizeTitle evt.title)
    title := evt.title
    ts := jsOrNat evt.ts now
    platform := jsOrStr evt.platform "youtube" }

/-- Function `updateTitlesBatchFromEvent` from `background.js`, as a pure
transformer of the stored `titles_batch` (the surrounding
`chrome.storage.local` read/write is modelled in the router below): prune
entries older than the retention window, then refresh the timestamp of the
entry with the normalized-title hash or append a new entry; an empty
normalized title only persists the pruned list. -/
def updateTitlesBatchFromEvent (now : Nat) (evt : Event)
    (titles_batch : List TitleEntry) : List TitleEntry :=
  let keepAfter := keepAfterI now
  let cleaned := titles_batch.filter (fun x => decide (keepAfter ≤ (x.ts : Int)))
  let norm := normalizeTitle evt.title
  if norm = [] then cleaned
  else
    let id := hashStr norm
    let r := refreshTs (jsOrNat evt.ts now) id cleaned
    if r.2 then r.1
    else cleaned ++ [newTitleEntry now evt]

/-- Model of `enqueueTitlesUpdate` / `__titlesQueue`: the promise chain
`__titlesQueue = __titlesQueue.then(() => updateTitlesBatchFromEvent(evt))`
runs the queued updates strictly one at a time in arrival order, each update
reading the state left by the previous one; so a batch of queued calls is the
left fold of the updates (each call paired with its `Date.now()`). -/
def runTitlesQueue (calls : List (Nat × Event)) (titles_batch : List TitleEntry) :
    List TitleEntry :=
  calls.foldl (fun acc c => updateTitlesBatchFromEvent c.1 c.2 acc) titles_batch

/-- Function `ackTitles` from `background.js`, as a pure transformer: remove
the entries whose id is listed; empty id lists and empty stores short-circuit
without writing. -/
def ackTitlesCore (ids : List String) (titles_batch : List TitleEntry) :
    List TitleEntry :=
  if ids = [] then titles_batch
  else if titles_batch = [] then titles_batch
  else titles_batch.filter (fun x => !(ids.contains x.id))

/-- Raw archive piece as supplied by the caller of `APPEND_PIECE`
(`none` models an absent field; the empty string is likewise falsy). -/
structure RawPiece where
  date : Option String
  title : Option String
  source : Option String
  url : Option String
  image_url : Option String
  imageUrl : Option String
deriving DecidableEq, Repr

/-- Stored archive piece as written by `appendPiece` (all fields present,
with the image value mirrored under both key spellings). -/
structure StoredPiece where
  date : String
  title : String
  source : String
  url : String
  image_url : String
  imageUrl : String
deriving DecidableEq, Repr

/-- The record built by `appendPiece`: default `date` to today
(`new Date().toISOString().slice(0,10).replaceAll('-','/')`, passed in as
`today`), default the other fields to the empty string, and store
`img = piece.image_url || piece.imageUrl || ''` under both keys. -/
def mkStoredPiece (today : String) (piece : RawPiece) : StoredPiece :=
  let img := jsOrOpt piece.image_url (jsOrOpt piece.imageUrl "")
  { date := jsOrOpt piece.date today
    title := jsOrOpt piece.title ""
    source := jsOrOpt piece.source ""
    url := jsOrOpt piece.url ""
    image_url := img
    imageUrl := img }

/-- Function `appendPiece` from `background.js`, as a pure transformer of the
stored `pieces_archive`: `unshift` the new record, then `slice(0, ARCHIVE_MAX)`. -/
def appendPieceCore (today : String) (piece : RawPiece)
    (pieces_archive : List StoredPiece) : List StoredPiece :=
  (mkStoredPiece today piece :: pieces_archive).take ARCHIVE_MAX

/-- The per-piece read normalization in `getArchive`: if an image value is
present but one of the two key spellings is missing/empty, mirror it to the
missing key; otherwise return the piece unchanged. -/
def normImgOnRead (p : StoredPiece) : StoredPiece :=
  let img := jsOrStr p.image_url (jsOrStr p.imageUrl "")
  if img ≠ "" ∧ (p.imageUrl = "" ∨ p.image_url = "") then
    { p with image_url := jsOrStr p.image_url img,
             imageUrl := jsOrStr p.imageUrl img }
  else p

/-- Function `getArchive` from `background.js`: the stored archive with the
image-field back-compat normalization applied to every entry. -/
def getArchiveView (pieces_archive : List StoredPiece) : List StoredPiece :=
  pieces_archive.map normImgOnRead

/-- Profile histogram `{ t0, t1, updated_at }`; the label→count maps are
association lists (their contents are opaque to the router). -/
structure ProfileHistogram where
  t0 : List (String × Int)
  t1 : List (String × Int)
  updated_at : Option Nat
deriving DecidableEq, Repr

/-- The persistent state owned by the background worker: the
`chrome.storage.local` keys plus the IndexedDB `events` log. -/
structure Store where
  titles_batch : List TitleEntry
  profile_histogram : Option ProfileHistogram
  pieces_archive : List StoredPiece
  last_webapp_sync_at : Option Nat
  events : List Event
deriving DecidableEq, Repr

/-- A store with every key unset, as on first run. -/
def emptyStore : Store :=
  { titles_batch := []
    profile_histogram := none
    pieces_archive := []
    last_webapp_sync_at := none
    events := [] }

/-- Failure behaviour of the asynchronous storage primitives: `some e` makes
every call of that primitive reject with message `e` (modelling
`chrome.storage` / IndexedDB failures), `none` makes it succeed. -/
structure Faults where
  storageGet : Option String
  storageSet : Option String
  dbAdd : Option String
  dbRead : Option String
  dbClear : Option String
deriving DecidableEq, Repr

/-- All storage primitives succeed. -/
def noFaults : Faults :=
  { storageGet := none, storageSet := none, dbAdd := none, dbRead := none,
    dbClear := none }

/-- A stateful, fallible computation over the store: JS writes performed
before a throw persist, so the state is returned alongside the error. -/
def StoreM (α : Type) : Type := Store → Except String α × Store

/-- Return for `StoreM`. -/
def mret {α : Type} (a : α) : StoreM α := fun st => (.ok a, st)

/-- Sequencing for `StoreM` (an `await` that propagates rejections). -/
def mbind {α β : Type} (m : StoreM α) (k : α → StoreM β) : StoreM β := fun st =>
  match m st with
  | (.ok a, st') => k a st'
  | (.error e, st') => (.error e, st')

/-- Model of the promise-level `.catch(() => {})` that `enqueueTitlesUpdate`
attaches to each queued titles update: rejections are swallowed. -/
def mcatchUnit (m : StoreM Unit) : StoreM Unit := fun st =>
  match m st with
  | (.ok _, st') => (.ok (), st')
  | (.error _, st') => (.ok (), st')

/-- Model of `chrome.storage.local.get` reading some projection of the store. -/
def pGet {α : Type} (f : Faults) (read : Store → α) : StoreM α := fun st =>
  match f.storageGet with
  | some e => (.error e, st)
  | none => (.ok (read st), st)

/-- Model of `chrome.storage.local.set` writing some keys of the store. -/
def pSet (f : Faults) (write : Store → Store) : StoreM Unit := fun st =>
  match f.storageSet with
  | some e => (.error e, st)
  | none => (.ok (), write st)

/-- Model of `addEvent`: append to the IndexedDB `events` log. -/
def pDbAdd (f : Faults) (evt : Event) : StoreM Unit := fun st =>
  match f.dbAdd with
  | some e => (.error e, st)
  | none => (.ok (), { st with events := st.events ++ [evt] })

/-- Model of opening the IndexedDB cursor in `getRecent`. -/
def pDbRead (f : Faults) : StoreM (List Event) := fun st =>
  match f.dbRead with
  | some e => (.error e, st)
  | none => (.ok st.events, st)

/-- Model of `clearAll`: clear the IndexedDB `events` log. -/
def pDbClear (f : Faults) : StoreM Unit := fun st =>
  match f.dbClear with
  | some e => (.error e, st)
  | none => (.ok (), { st with events := [] })

/-- Insertion into a timestamp-descending list (the `by_ts` index walked with
a `'prev'` cursor in `getRecent`; ordering among equal timestamps is not
observed by any claim). -/
def insertByTsDesc (e : Event) : List Event → List Event
  | [] => [e]
  | x :: xs => if x.ts ≤ e.ts then e :: x :: xs else x :: insertByTsDesc e xs

/-- The events log sorted newest-first, as `getRecent`'s cursor traverses it. -/
def sortByTsDesc (l : List Event) : List Event :=
  l.foldr insertByTsDesc []

/-- Data payloads carried in router responses. -/
inductive RData where
  | titles (l : List TitleEntry)
  | events (l : List Event)
  | profile (p : Option ProfileHistogram)
  | pieces (l : List StoredPiece)
  | status (last : Option Nat)
deriving DecidableEq, Repr

/-- Response shape `{ ok, data?, error?, stored? }` sent via `sendResponse`. -/
structure Response where
  ok : Bool
  data : Option RData
  error : Option String
  stored : Option Bool
deriving DecidableEq, Repr

/-- A successful response with no extra fields. -/
def okResp : Response := { ok := true, data := none, error := none, stored := none }

/-- A successful response carrying data. -/
def okData (d : RData) : Response :=
  { ok := true, data := some d, error := none, stored := none }

/-- The message vocabulary dispatched by the `chrome.runtime.onMessage`
listener; `other` stands for any unrecognized `msg.type`.  The untyped
payload-shape juggling of the JS dispatcher (`msg.ids || msg.payload || {}`
and the like) is collapsed into typed constructor arguments. -/
inductive Msg where
  | lclAddEvent (payload : RawPayload)
  | lclGetRecent (lim : Nat)
  | lclClear
  | getTitles
  | ackTitles (ids : List String)
  | clearTitles
  | setProfile (profile : ProfileHistogram)
  | getProfile
  | appendPiece (piece : RawPiece)
  | getArchive
  | getStatus
  | clearProfileArchive
  | other (s : String)
deriving DecidableEq, Repr

/-- Whether a message is in the dispatch vocabulary (everything but `other`). -/
def inVocabulary : Msg → Bool
  | .other _ => false
  | _ => true

/-- The handlers that stamp `last_webapp_sync_at`. -/
def writesSyncStamp : Msg → Bool
  | .setProfile _ => true
  | .appendPiece _ => true
  | .clearProfileArchive => true
  | _ => false

/-- The read-then-write body of `updateTitlesBatchFromEvent` (load
`titles_batch`, transform, persist). -/
def titlesUpdateOp (f : Faults) (now : Nat) (evt : Event) : StoreM Unit :=
  mbind (pGet f (fun st => st.titles_batch)) (fun tb =>
    pSet f (fun st => { st with titles_batch := updateTitlesBatchFromEvent now evt tb }))

/-- Handler `ackTitles`: short-circuit on an empty id list or empty store,
else filter and persist. -/
def ackTitlesOp (f : Faults) (ids : List String) : StoreM Unit :=
  if ids = [] then mret ()
  else mbind (pGet f (fun st => st.titles_batch)) (fun tb =>
    if tb = [] then mret ()
    else pSet f (fun st => { st with titles_batch := tb.filter (fun x => !(ids.contains x.id)) }))

/-- The body of the `chrome.runtime.onMessage` listener's `try` block —
the if/else dispatch over `msg.type`.  `now` is `Date.now()` and `today` the
`YYYY/MM/DD` date string; unknown messages fall through without a response
(`none`). -/
def handleBody (f : Faults) (now : Nat) (today : String) : Msg → StoreM (Option Response)
  | .lclAddEvent p =>
    match sanitizeEvent now p with
    | some compact =>
      mbind (pDbAdd f compact) (fun _ =>
      mbind (mcatchUnit (titlesUpdateOp f now compact)) (fun _ =>
      mret (some { ok := true, data := none, error := none, stored := some true })))
    | none => mret (some { ok := true, data := none, error := none, stored := some false })
  | .lclGetRecent lim =>
    mbind (pDbRead f) (fun evs =>
    mret (some (okData (.events ((sortByTsDesc evs).take lim)))))
  | .lclClear =>
    mbind (pDbClear f) (fun _ => mret (some okResp))
  | .getTitles =>
    mbind (pGet f (fun st => st.titles_batch)) (fun tb =>
    mret (some (okData (.titles tb))))
  | .ackTitles ids =>
    mbind (ackTitlesOp f ids) (fun _ => mret (some okResp))
  | .clearTitles =>
    mbind (pSet f (fun st => { st with titles_batch := [] })) (fun _ =>
    mret (some okResp))
  | .setProfile profile =>
    mbind (pSet f (fun st =>
      { st with profile_histogram := some { profile with updated_at := some now },
                last_webapp_sync_at := some now })) (fun _ =>
    mret (some okResp))
  | .getProfile =>
    mbind (pGet f (fun st => st.profile_histogram)) (fun p =>
    mret (some (okData (.profile p))))
  | .appendPiece piece =>
    mbind (pGet f (fun st => st.pieces_archive)) (fun arr =>
    mbind (pSet f (fun st =>
      { st with pieces_archive := appendPieceCore today piece arr,
                last_webapp_sync_at := some now })) (fun _ =>
    mret (some okResp)))
  | .getArchive =>
    mbind (pGet f (fun st => st.pieces_archive)) (fun arr =>
    mret (some (okData (.pieces (getArchiveView arr)))))
  | .getStatus =>
    mbind (pGet f (fun st => st.last_webapp_sync_at)) (fun l =>
    mret (some (okData (.status l))))
  | .clearProfileArchive =>
    mbind (pSet f (fun st =>
      { st with profile_histogram := none, pieces_archive := [],
                last_webapp_sync_at := some now })) (fun _ =>
    mret (some okResp))
  | .other _ => mret none

/-- The full message listener: the `try`/`catch` dispatch boundary.  A
rejection anywhere in the body is caught and converted into
`{ ok: false, error: String(e) }`; the listener itself never throws (it is a
total function). -/
def handleMessage (f : Faults) (now : Nat) (today : String) (m : Msg) (st : Store) :
    Option Response × Store :=
  match handleBody f now today m st with
  | (.ok r, st') => (r, st')
  | (.error e, st') =>
    (some { ok := false, data := none, error := some e, stored := none }, st')

/-- Outcome of one `pmSend` relay attempt in `web/lib/bridge.ts`, with the
asynchronous race embedded as data: `none` means no `message` event with the
matching `requestId` arrived before the 1500 ms timeout fired (the promise
resolves `null`); `some r` means a matching event arrived in time carrying
`data.response = r`, where `r = none` models a falsy (`null`/`undefined`)
response field.  `pmSend` resolves `data.response || null`. -/
def pmSend (relayOutcome : Option (Option Response)) : Option Response :=
  match relayOutcome with
  | none => none
  | some r =>
    match r with
    | some v => some v
    | none => none

/-- Function `send` from `web/lib/bridge.ts`: await the relay; if it yielded
a truthy value return it, otherwise fall back to the direct
`chrome.runtime.sendMessage` transport, whose (possibly null) result is
`runtimeResult`. -/
def send (relayOutcome : Option (Option Response)) (runtimeResult : Option Response) :
    Option Response :=
  match pmSend relayOutcome with
  | some v => some v
  | none => runtimeResult

/-- ASCII decimal digit. -/
def isDigitChar (c : Char) : Bool := 0x30 ≤ c.toNat && c.toNat ≤ 0x39

/-- JS `parseInt` on a non-empty all-digit string. -/
def digitsVal (ds : List Char) : Nat :=
  ds.foldl (fun a c => a * 10 + (c.toNat - 0x30)) 0

/-- Consume `\d+` (greedy; exact here because the following regex token is
never a digit) or fail. -/
def eatDigits1 : List Char → Option (List Char)
  | c :: rest => if isDigitChar c then some (rest.dropWhile isDigitChar) else none
  | [] => none

/-- Consume `\s+` (greedy; exact because the following token is a letter). -/
def eatWs1 : List Char → Option (List Char)
  | c :: rest => if isJsWs c then some (rest.dropWhile isJsWs) else none
  | [] => none

/-- Consume a literal word, case-insensitively (the `/i` flag). -/
def eatLitCI : List Char → List Char → Option (List Char)
  | [], l => some l
  | _ :: _, [] => none
  | a :: ws, c :: cs => if toLowerChar c = a then eatLitCI ws cs else none

/-- Both readings of the optional plural `s?` (with it and without it), so
the end-anchor check below ranges over every parse the regex can take. -/
def eatOptS (l : List Char) : List (List Char) :=
  match l with
  | c :: rest => if toLowerChar c = 's' then [rest, l] else [l]
  | [] => [l]

/-- All remainders after parsing `\d+\s+UNITs?` at the head of `l`. -/
def eatNumUnit (unit : String) (l : List Char) : List (List Char) :=
  match eatDigits1 l with
  | none => []
  | some r1 =>
    match eatWs1 r1 with
    | none => []
    | some r2 =>
      match eatLitCI unit.data r2 with
      | none => []
      | some r3 => eatOptS r3

/-- Consume `,\s*` or fail. -/
def eatCommaWs : List Char → Option (List Char)
  | c :: rest => if c.toNat = 0x2C then some (rest.dropWhile isJsWs) else none
  | [] => none

/-- All remainders after parsing `,\s*\d+\s+UNITs?`. -/
def commaNumUnit (unit : String) (l : List Char) : List (List Char) :=
  match eatCommaWs l with
  | none => []
  | some r => eatNumUnit unit r

/-- One optional regex group `(?:g)?`: every remainder with the group taken
plus the remainder with it skipped. -/
def optGroup (g : List Char → List (List Char)) (rests : List (List Char)) :
    List (List Char) :=
  rests.flatMap (fun r => g r ++ [r])

/-- Whether `l` exactly matches the capture of `durationSuffixRe` in
`content.js`, i.e. the alternation `\d+\s+hours?(,\s*\d+\s+minutes?)?
(,\s*\d+\s+seconds?)? | \d+\s+minutes?(,\s*\d+\s+seconds?)? |
\d+\s+seconds?` anchored at the end of the string.  Because the pattern is
end-anchored, a match exists iff some parse consumes the whole string, so
the ordered alternation and greediness of the regex engine do not affect
this predicate. -/
def matchesDurationAlt (l : List Char) : Bool :=
  let alt1 := optGroup (commaNumUnit "second")
    (optGroup (commaNumUnit "minute") (eatNumUnit "hour" l))
  let alt2 := optGroup (commaNumUnit "second") (eatNumUnit "minute" l)
  let alt3 := eatNumUnit "second" l
  (alt1 ++ alt2 ++ alt3).any (fun r => r = [])

/-- Shape of the optional separator `(?:\s*-?\s*)?` before the captured
phrase: whitespace, at most one dash, whitespace. -/
def preShape (l : List Char) : Bool :=
  match l.dropWhile isJsWs with
  | [] => true
  | c :: rest => c.toNat = 0x2D && rest.all isJsWs

/-- Try `durationSuffixRe` at the current position: the capture must begin
at the first digit at or after this position (the separator cannot contain a
digit), the characters before it must fit the separator shape, and the
capture must match the alternation to the end of the string. -/
def tryDurAt (l : List Char) : Option (List Char) :=
  let pre := l.takeWhile (fun c => !isDigitChar c)
  let ph := l.dropWhile (fun c => !isDigitChar c)
  if preShape pre ∧ ph ≠ [] ∧ matchesDurationAlt ph then some ph else none

/-- Leftmost match of `durationSuffixRe`: `rawTitle.match(...)` scans start
positions left to right; returns `(m.index, m[1])`. -/
def findDurMatch : List Char → Option (Nat × List Char)
  | [] => none
  | l@(_ :: t) =>
    match tryDurAt l with
    | some ph => some (0, ph)
    | none => (findDurMatch t).map (fun p => (p.1 + 1, p.2))

/-- Worker for `splitCommaWs`, accumulating the current segment reversed;
`skipWs` records that we are inside the `\s*` tail of a separator match, so
whitespace is still being consumed by the separator. -/
def splitCommaWsGo (skipWs : Bool) (acc : List Char) : List Char → List (List Char)
  | [] => [acc.reverse]
  | c :: rest =>
    if skipWs && isJsWs c then splitCommaWsGo true acc rest
    else if c.toNat = 0x2C then acc.reverse :: splitCommaWsGo true [] rest
    else splitCommaWsGo false (c :: acc) rest

/-- JS `phrase.split(/,\s*/)`. -/
def splitCommaWs (l : List Char) : List (List Char) := splitCommaWsGo false [] l

/-- Duration unit recognized inside a phrase part. -/
inductive DurUnit where
  | hourU
  | minuteU
  | secondU
deriving DecidableEq, Repr

/-- Which unit word starts at `l` (the part regex's ordered alternation
`hours?|hour|minutes?|minute|seconds?|second` reduces to the base word; the
code then classifies with `/hour/i`, `/minute/i`, `/second/i` tests). -/
def unitWordAt (l : List Char) : Option DurUnit :=
  if (eatLitCI "hour".data l).isSome then some .hourU
  else if (eatLitCI "minute".data l).isSome then some .minuteU
  else if (eatLitCI "second".data l).isSome then some .secondU
  else none

/-- Match `(\d+)\s+(unit word)` at the head of `l`, returning the parsed
value and unit. -/
def numUnitAt (l : List Char) : Option (Nat × DurUnit) :=
  match l with
  | c :: _ =>
    if isDigitChar c then
      let ds := l.takeWhile isDigitChar
      let r1 := l.dropWhile isDigitChar
      match eatWs1 r1 with
      | some r2 => (unitWordAt r2).map (fun u => (digitsVal ds, u))
      | none => none
    else none
  | [] => none

/-- Leftmost match of `(\d+)\s+(hours?|hour|minutes?|minute|seconds?|second)`
inside one comma-separated part. -/
def partScan : List Char → Option (Nat × DurUnit)
  | [] => none
  | l@(_ :: t) =>
    match numUnitAt l with
    | some r => some r
    | none => partScan t

/-- The `parts.forEach` loop of `processNode`: fold the per-part matches
into the `h`/`mi`/`s` accumulators (a later part for the same unit wins). -/
def hmsOfParts (parts : List (List Char)) : Nat × Nat × Nat :=
  parts.foldl (fun acc part =>
    match partScan part with
    | some (v, .hourU) => (v, acc.2.1, acc.2.2)
    | some (v, .minuteU) => (acc.1, v, acc.2.2)
    | some (v, .secondU) => (acc.1, acc.2.1, v)
    | none => acc) (0, 0, 0)

/-- JS `String(x).padStart(2, '0')` for a natural number. -/
def padTwo (n : Nat) : String :=
  let s := Nat.repr n
  if s.length < 2 then "0" ++ s else s

/-- The duration formatting chain of `processNode`:
`if (h) ... else if (mi || s) ... else if (s) ...`, leaving `length`
unchanged when no branch fires. -/
def formatDuration (h mi s : Nat) (length0 : String) : String :=
  if h ≠ 0 then Nat.repr h ++ ":" ++ padTwo mi ++ ":" ++ padTwo s
  else if mi ≠ 0 ∨ s ≠ 0 then Nat.repr mi ++ ":" ++ padTwo s
  else if s ≠ 0 then "0:" ++ padTwo s
  else length0

/-- The duration-suffix block of `processNode` in `content.js`: find the
trailing duration phrase; if present, cut it from the title (trimming the
remainder) and, when no explicit `length` was extracted (`length0 = ""`
models the falsy empty string), parse the phrase into `H:MM:SS` / `M:SS`
form.  Returns the cleaned title and the resulting `length`. -/
def processTitleDuration (rawTitle : List Char) (length0 : String) :
    List Char × String :=
  match findDurMatch rawTitle with
  | none => (rawTitle, length0)
  | some (i, phrase) =>
    let stripped := trimChars (rawTitle.take i)
    if length0 = "" then
      let parts := splitCommaWs phrase
      let hms := hmsOfParts parts
      (stripped, formatDuration hms.1 hms.2.1 hms.2.2 length0)
    else (stripped, length0)

/-- Frame predicate: a store computation never changes
`last_webapp_sync_at`, whether it succeeds or rejects. -/
def PreservesSync {α : Type} (m : StoreM α) : Prop :=
  ∀ st : Store, ((m st).2).last_webapp_sync_at = st.last_webapp_sync_at

/-- The maximum event timestamp over a batch of queued update calls
(each call paired with its `Date.now()`). -/
def maxTsOfCalls (calls : List (Nat × Event)) : Nat :=
  calls.foldl (fun a c => max a c.2.ts) 0

/-- Append a whole list of pieces, oldest first, to an empty archive. -/
def appendAll (today : String) (ps : List RawPiece) : List StoredPiece :=
  ps.foldl (fun a p => appendPieceCore today p a) []

/-- A sanitized event whose title is the single letter `a`. -/
def evTitleA (t : Nat) : Event :=
  { ts := t, type := .feed_video, title := "a".data, videoId := none,
    href := none, page := none, platform := "youtube" }

/-- A sanitized event with title `alpha`. -/
def evTitleAlpha (t : Nat) : Event :=
  { ts := t, type := .feed_video, title := "alpha".data, videoId := none,
    href := none, page := none, platform := "youtube" }

/-- A sanitized event with title `beta`. -/
def evTitleBeta (t : Nat) : Event :=
  { ts := t, type := .shorts_video, title := "beta".data, videoId := none,
    href := none, page := none, platform := "youtube" }

/-- A sanitized event whose title is a single double-quote character, so its
normalized form is empty. -/
def quoteEvt : Event :=
  { ts := 5, type := .feed_video, title := [Char.ofNat 0x22], videoId := none,
    href := none, page := none, platform := "youtube" }

/-- An arbitrary stored entry used to exercise retention pruning. -/
def probeEntry : TitleEntry :=
  { id := "someid", title := "probe".data, ts := 3, platform := "youtube" }

/-- The entry produced by sighting title `a` at timestamp 3. -/
def staleEntryA : TitleEntry :=
  { id := hashStr (normalizeTitle "a".data), title := "a".data, ts := 3,
    platform := "youtube" }

/-- An in-window entry used for the retention "kept" direction. -/
def keptEntry : TitleEntry :=
  { id := "k1", title := "keep".data, ts := 25, platform := "youtube" }

/-- An event with title `b` used against `staleEntryA` / `keptEntry`. -/
def evTitleB (t : Nat) : Event :=
  { ts := t, type := .feed_video, title := "b".data, videoId := none,
    href := none, page := none, platform := "youtube" }

/-- The two queued update calls of the retention counterexample: a
future-dated sighting of `a`, then — more than 14 days later — a second
sighting of `a` with a small timestamp.  The first entry is pruned and the
title re-appended with the smaller timestamp. -/
def c1RetentionCalls : List (Nat × Event) :=
  [(1, evTitleA 2000000000), (2000000000 + 1209600001, evTitleA 7)]

/-- The raw title of the duration-strip scenario. -/
def c9RawTitle : List Char := "Breaking News Today - 3 minutes, 12 seconds".data

/-- The content-script payload of the duration-strip scenario at time `t`:
the title after duration-suffix stripping, no explicit length extracted. -/
def c9Payload (t : Nat) : RawPayload :=
  { type := some "feed_video", title := some (processTitleDuration c9RawTitle "").1,
    ts := t, videoId := some "bn1", href := some "/watch?v=bn1",
    page := some "/", platform := some "youtube" }

/-- The sanitized event of the duration-strip scenario at time `t`. -/
def c9Event (t : Nat) : Event :=
  { ts := t, type := .feed_video, title := "Breaking News Today".data,
    videoId := some "bn1", href := some "/watch?v=bn1", page := some "/",
    platform := "youtube" }

/-- A sample archive piece for the archive-bound witness. -/
def samplePiece : RawPiece :=
  { date := some "2025/01/01", title := some "t", source := none,
    url := some "u", image_url := none, imageUrl := none }

/-- A store whose sync stamp is 5 (for the frame counterexample). -/
def stSync5 : Store :=
  { titles_batch := []
    profile_histogram := none
    pieces_archive := []
    last_webapp_sync_at := some 5
    events := [] }

/-- Faults making every `chrome.storage.local.get` reject with message
`boom`. -/
def faultyGet : Faults :=
  { storageGet := some "boom", storageSet := none, dbAdd := none,
    dbRead := none, dbClear := none }

/-! ### Helper lemmas about the title store -/

theorem jsOrNat_zero (a : Nat) : jsOrNat a 0 = a := by
  unfold jsOrNat; split <;> simp_all

theorem jsOrNat_pos {a : Nat} (h : 0 < a) (b : Nat) : jsOrNat a b = a := by
  unfold jsOrNat; split <;> omega

theorem refreshTs_false_eq (t : Nat) (i : String) :
    ∀ l : List TitleEntry, (refreshTs t i l).2 = false → (refreshTs t i l).1 = l := by
  intro l
  induction l with
  | nil => intro _; rfl
  | cons x xs ih =>
    intro h
    by_cases hx : x.id = i
    · simp [refreshTs, hx] at h
    · simp only [refreshTs, if_neg hx] at h ⊢
      rw [ih h]

theorem refreshTs_true_mem (t : Nat) (i : String) :
    ∀ l : List TitleEntry, (refreshTs t i l).2 = true →
      ∃ x ∈ (refreshTs t i l).1, x.id = i ∧ t ≤ x.ts := by
  intro l
  induction l with
  | nil => intro h; simp [refreshTs] at h
  | cons x xs ih =>
    intro h
    by_cases hx : x.id = i
    · refine ⟨{ x with ts := max (jsOrNat x.ts 0) t }, ?_, hx, ?_⟩
      · simp [refreshTs, hx]
      · simp
    · simp only [refreshTs, if_neg hx] at h ⊢
      obtain ⟨y, hy, hyid, hyts⟩ := ih h
      exact ⟨y, List.mem_cons_of_mem _ hy, hyid, hyts⟩

theorem refreshTs_mem_src (t : Nat) (i : String) :
    ∀ (l : List TitleEntry) (x : TitleEntry), x ∈ (refreshTs t i l).1 →
      ∃ y ∈ l, x = y ∨ x = { y with ts := max (jsOrNat y.ts 0) t } := by
  intro l
  induction l with
  | nil => intro x hx; simp [refreshTs] at hx
  | cons z zs ih =>
    intro x hx
    by_cases hz : z.id = i
    · simp only [refreshTs, if_pos hz] at hx
      rcases List.mem_cons.mp hx with h | h
      · exact ⟨z, List.mem_cons_self z zs, Or.inr h⟩
      · exact ⟨x, List.mem_cons_of_mem _ h, Or.inl rfl⟩
    · simp only [refreshTs, if_neg hz] at hx
      rcases List.mem_cons.mp hx with h | h
      · exact ⟨z, List.mem_cons_self z zs, Or.inl h⟩
      · obtain ⟨y, hy, hxy⟩ := ih x h
        exact ⟨y, List.mem_cons_of_mem _ hy, hxy⟩

theorem refreshTs_mem_ne (t : Nat) (i : String) :
    ∀ (l : List TitleEntry) (x : TitleEntry), x ∈ l → x.id ≠ i →
      x ∈ (refreshTs t i l).1 := by
  intro l
  induction l with
  | nil => intro x hx _; simp at hx
  | cons z zs ih =>
    intro x hx hne
    by_cases hz : z.id = i
    · simp only [refreshTs, if_pos hz]
      rcases List.mem_cons.mp hx with h | h
      · exact absurd (h ▸ hz) hne
      · exact List.mem_cons_of_mem _ h
    · simp only [refreshTs, if_neg hz]
      rcases List.mem_cons.mp hx with h | h
      · exact h ▸ List.mem_cons_self _ _
      · exact List.mem_cons_of_mem _ (ih x h hne)

theorem refreshTs_id_exists (t : Nat) (i : String) :
    ∀ (l : List TitleEntry) (y : TitleEntry), y ∈ l →
      ∃ x ∈ (refreshTs t i l).1, x.id = y.id ∧ y.ts ≤ x.ts := by
  intro l
  induction l with
  | nil => intro y hy; simp at hy
  | cons z zs ih =>
    intro y hy
    by_cases hz : z.id = i
    · simp only [refreshTs, if_pos hz]
      rcases List.mem_cons.mp hy with h | h
      · subst h
        refine ⟨{ y with ts := max (jsOrNat y.ts 0) t }, List.mem_cons_self _ _, rfl, ?_⟩
        rw [jsOrNat_zero]
        exact le_max_left _ _
      · exact ⟨y, List.mem_cons_of_mem _ h, rfl, le_refl _⟩
    · simp only [refreshTs, if_neg hz]
      rcases List.mem_cons.mp hy with h | h
      · exact ⟨z, List.mem_cons_self _ _, by rw [h], by rw [h]⟩
      · obtain ⟨x, hx, hxid, hxts⟩ := ih y h
        exact ⟨x, List.mem_cons_of_mem _ hx, hxid, hxts⟩

theorem update_mem_characterize (now : Nat) (evt : Event) (s : List TitleEntry) :
    ∀ x ∈ updateTitlesBatchFromEvent now evt s,
      keepAfterI now ≤ (x.ts : Int) ∨ x = newTitleEntry now evt := by
  intro x hx
  unfold updateTitlesBatchFromEvent at hx
  have hclean : ∀ y ∈ s.filter (fun z => decide (keepAfterI now ≤ (z.ts : Int))),
      keepAfterI now ≤ (y.ts : Int) := by
    intro y hy
    have := (List.mem_filter.mp hy).2
    exact of_decide_eq_true this
  by_cases hn : normalizeTitle evt.title = []
  · rw [if_pos hn] at hx
    exact Or.inl (hclean x hx)
  · rw [if_neg hn] at hx
    by_cases hr : (refreshTs (jsOrNat evt.ts now) (hashStr (normalizeTitle evt.title))
        (s.filter (fun z => decide (keepAfterI now ≤ (z.ts : Int))))).2 = true
    · rw [if_pos hr] at hx
      obtain ⟨y, hy, hxy⟩ := refreshTs_mem_src _ _ _ x hx
      rcases hxy with h | h
      · exact Or.inl (h ▸ hclean y hy)
      · left
        have hyts := hclean y hy
        have : y.ts ≤ max (jsOrNat y.ts 0) (jsOrNat evt.ts now) := by
          rw [jsOrNat_zero]; exact le_max_left _ _
        calc keepAfterI now ≤ (y.ts : Int) := hyts
          _ ≤ ((max (jsOrNat y.ts 0) (jsOrNat evt.ts now) : Nat) : Int) := by
              exact_mod_cast this
          _ = (x.ts : Int) := by rw [h]
    · rw [if_neg hr] at hx
      rcases List.mem_append.mp hx with h | h
      · exact Or.inl (hclean x h)
      · right
        simpa using h

theorem update_creates (now : Nat) (evt : Event) (s : List TitleEntry)
    (h : normalizeTitle evt.title ≠ []) :
    ∃ x ∈ updateTitlesBatchFromEvent now evt s,
      x.id = hashStr (normalizeTitle evt.title) ∧ jsOrNat evt.ts now ≤ x.ts := by
  unfold updateTitlesBatchFromEvent
  rw [if_neg h]
  by_cases hr : (refreshTs (jsOrNat evt.ts now) (hashStr (normalizeTitle evt.title))
      (s.filter (fun z => decide (keepAfterI now ≤ (z.ts : Int))))).2 = true
  · rw [if_pos hr]
    exact refreshTs_true_mem _ _ _ hr
  · rw [if_neg hr]
    refine ⟨newTitleEntry now evt, ?_, rfl, le_refl _⟩
    exact List.mem_append_right _ (List.mem_singleton_self _)

theorem update_preserves (now : Nat) (evt : Event) (s : List TitleEntry)
    {x : TitleEntry} (hm : x ∈ s) (hts : keepAfterI now ≤ (x.ts : Int))
    (hid : x.id ≠ hashStr (normalizeTitle evt.title)) :
    x ∈ updateTitlesBatchFromEvent now evt s := by
  unfold updateTitlesBatchFromEvent
  have hclean : x ∈ s.filter (fun z => decide (keepAfterI now ≤ (z.ts : Int))) :=
    List.mem_filter.mpr ⟨hm, decide_eq_true hts⟩
  by_cases hn : normalizeTitle evt.title = []
  · rw [if_pos hn]; exact hclean
  · rw [if_neg hn]
    by_cases hr : (refreshTs (jsOrNat evt.ts now) (hashStr (normalizeTitle evt.title))
        (s.filter (fun z => decide (keepAfterI now ≤ (z.ts : Int))))).2 = true
    · rw [if_pos hr]
      exact refreshTs_mem_ne _ _ _ x hclean hid
    · rw [if_neg hr]
      exact List.mem_append_left _ hclean

theorem update_keeps_id (now : Nat) (evt : Event) (s : List TitleEntry)
    {y : TitleEntry} (hm : y ∈ s) (hts : keepAfterI now ≤ (y.ts : Int)) :
    ∃ x ∈ updateTitlesBatchFromEvent now evt s, x.id = y.id ∧ y.ts ≤ x.ts := by
  unfold updateTitlesBatchFromEvent
  have hclean : y ∈ s.filter (fun z => decide (keepAfterI now ≤ (z.ts : Int))) :=
    List.mem_filter.mpr ⟨hm, decide_eq_true hts⟩
  by_cases hn : normalizeTitle evt.title = []
  · rw [if_pos hn]; exact ⟨y, hclean, rfl, le_refl _⟩
  · rw [if_neg hn]
    by_cases hr : (refreshTs (jsOrNat evt.ts now) (hashStr (normalizeTitle evt.title))
        (s.filter (fun z => decide (keepAfterI now ≤ (z.ts : Int))))).2 = true
    · rw [if_pos hr]
      exact refreshTs_id_exists _ _ _ y hclean
    · rw [if_neg hr]
      exact ⟨y, List.mem_append_left _ hclean, rfl, le_refl _⟩

/-! ### C6 — bridge transport fallback -/

/-- C6 (counterexample): if the relay responds in time but with a falsy
`response` field (modelled as `some none`), the overall result still depends
on — i.e. uses — the direct runtime transport, contradicting the claim that
whenever the relay responds, its response is returned and the direct
transport is not used. -/
theorem claim_C6_counterexample :
    send (some none)
        (some { ok := true, data := none, error := none, stored := none }) ≠
      send (some none) none := by
  decide

/-- C6 (amended): if the relay produces no matching response within the
timeout, the relay attempt resolves to null and the direct transport's
result is used; if the relay responds with a *non-null* response, that
response is returned and the direct transport's result is ignored; a relay
response whose `response` field is null also resolves to null and falls
through to the direct transport. -/
theorem claim_C6_amended :
    pmSend none = none ∧
    (∀ runtimeResult : Option Response, send none runtimeResult = runtimeResult) ∧
    (∀ (v : Response) (runtimeResult : Option Response),
      send (some (some v)) runtimeResult = some v) ∧
    (∀ runtimeResult : Option Response, send (some none) runtimeResult = runtimeResult) :=
  ⟨rfl, fun _ => rfl, fun _ _ => rfl, fun _ => rfl⟩

/-! ### C7 — title normalization -/

/-- C7 (counterexample): on the circled digit U+2460 the code's NFKD
normalization yields the digit 1 while the claimed pipeline with Unicode
*canonical* decomposition leaves the character unchanged, so the claim as
stated fails. -/
theorem claim_C7_counterexample :
    normalizeTitle [Char.ofNat 0x2460] ≠ normalizeTitleSpecCanonical [Char.ofNat 0x2460] := by
  decide

/-- C7 (amended): for every input string, the normalized form equals the
result of lowercasing, Unicode *compatibility* decomposition (NFKD) with
diacritic stripping, collapsing all whitespace runs to single spaces,
stripping quote characters, and trimming. -/
theorem claim_C7_amended (t : List Char) :
    normalizeTitle t = normalizeTitleSpecNFKD t := rfl

/-! ### C9 — duration-strip scenario -/

/-- C9: processing the raw title `Breaking News Today - 3 minutes, 12
seconds` with no explicit length yields the cleaned title `Breaking News
Today` and length `3:12`; sanitizing the resulting payload at t = 0 and
t = 100 succeeds; and queueing the two sightings (first at t = 0, second at
t = 100) against an empty store produces exactly one entry, keyed by the
hash of the normalized title, with the cleaned title and ts = 100.  (The
parsed length lives on the harvested candidate — `TitleBatchEntry` has no
length field.) -/
theorem claim_C9_duration_scenario :
    processTitleDuration c9RawTitle "" = ("Breaking News Today".data, "3:12") ∧
    sanitizeEvent 0 (c9Payload 0) = some (c9Event 0) ∧
    sanitizeEvent 100 (c9Payload 100) = some (c9Event 100) ∧
    runTitlesQueue [(0, c9Event 0), (100, c9Event 100)] [] =
      [{ id := hashStr (normalizeTitle "Breaking News Today".data),
         title := "Breaking News Today".data, ts := 100, platform := "youtube" }] := by
  refine ⟨by decide, by decide, by decide, by decide⟩

/-! ### C10 — empty-normalizing titles -/

/-- C10: an update whose event title normalizes to the empty string appends
nothing and modifies nothing — the store becomes exactly the
retention-pruned previous list (which is then persisted) — and in particular
every entry present afterwards was already present before, so no entry can
originate from such an event. -/
theorem claim_C10_empty_norm (now : Nat) (evt : Event) (s : List TitleEntry)
    (h : normalizeTitle evt.title = []) :
    updateTitlesBatchFromEvent now evt s =
      s.filter (fun x => decide (keepAfterI now ≤ (x.ts : Int))) ∧
    ∀ x ∈ updateTitlesBatchFromEvent now evt s, x ∈ s := by
  constructor
  · unfold updateTitlesBatchFromEvent
    rw [if_pos h]
  · intro x hx
    unfold updateTitlesBatchFromEvent at hx
    rw [if_pos h] at hx
    exact (List.mem_filter.mp hx).1

/-- C10 (witness): the empty-normalizing event `quoteEvt` (its title is one
double-quote character) at `now = 5` over a one-entry store. -/
theorem claim_C10_witness :
    updateTitlesBatchFromEvent 5 quoteEvt [probeEntry] =
      [probeEntry].filter (fun x => decide (keepAfterI 5 ≤ (x.ts : Int))) ∧
    ∀ x ∈ updateTitlesBatchFromEvent 5 quoteEvt [probeEntry], x ∈ [probeEntry] :=
  claim_C10_empty_norm 5 quoteEvt [probeEntry] (by decide)

/-! ### C2 — serialized concurrent updates -/

/-- C2: two `update()` calls for events with distinct, non-empty normalized
titles, run through the single-lane queue (which executes them strictly one
at a time in arrival order — `runTitlesQueue` is that serial semantics),
leave both entries present afterwards: no lost update.  The window
hypothesis says the first event's effective timestamp is not already outside
the retention window at the second call. -/
theorem claim_C2_concurrent_updates
    (n1 n2 : Nat) (e1 e2 : Event) (tb : List TitleEntry)
    (h1 : normalizeTitle e1.title ≠ []) (h2 : normalizeTitle e2.title ≠ [])
    (hne : hashStr (normalizeTitle e1.title) ≠ hashStr (normalizeTitle e2.title))
    (hwin : keepAfterI n2 ≤ (jsOrNat e1.ts n1 : Int)) :
    (∃ x ∈ runTitlesQueue [(n1, e1), (n2, e2)] tb,
      x.id = hashStr (normalizeTitle e1.title)) ∧
    (∃ x ∈ runTitlesQueue [(n1, e1), (n2, e2)] tb,
      x.id = hashStr (normalizeTitle e2.title)) := by
  have hrun : runTitlesQueue [(n1, e1), (n2, e2)] tb =
      updateTitlesBatchFromEvent n2 e2 (updateTitlesBatchFromEvent n1 e1 tb) := rfl
  obtain ⟨x1, hx1, hx1id, hx1ts⟩ := update_creates n1 e1 tb h1
  constructor
  · refine ⟨x1, ?_, hx1id⟩
    rw [hrun]
    apply update_preserves n2 e2 _ hx1
    · calc keepAfterI n2 ≤ (jsOrNat e1.ts n1 : Int) := hwin
        _ ≤ (x1.ts : Int) := by exact_mod_cast hx1ts
    · rw [hx1id]; exact hne
  · obtain ⟨x2, hx2, hx2id, _⟩ :=
      update_creates n2 e2 (updateTitlesBatchFromEvent n1 e1 tb) h2
    exact ⟨x2, by rw [hrun]; exact hx2, hx2id⟩

/-- C2 (witness): two sightings with titles `alpha` and `beta` arriving at
the same instant over an empty store. -/
theorem claim_C2_witness :
    (∃ x ∈ runTitlesQueue [(1000, evTitleAlpha 1000), (1000, evTitleBeta 1000)] [],
      x.id = hashStr (normalizeTitle (evTitleAlpha 1000).title)) ∧
    (∃ x ∈ runTitlesQueue [(1000, evTitleAlpha 1000), (1000, evTitleBeta 1000)] [],
      x.id = hashStr (normalizeTitle (evTitleBeta 1000).title)) :=
  claim_C2_concurrent_updates 1000 1000 (evTitleAlpha 1000) (evTitleBeta 1000) []
    (by decide) (by decide) (by decide) (by decide)

/-! ### C3 — retention -/

/-- C3 (counterexample): an expired entry is *not* always absent after an
update — an incoming sighting whose timestamp is equally old and whose
title hashes to the same id re-appends an identical record, because the
append step does not re-check the retention window.  Concretely, with the
store holding the entry for title `a` at ts = 3 and an update for title `a`
with ts = 3 running more than 14 days later, the identical entry is a
member of the persisted list even though its ts is before the cut-off. -/
theorem claim_C3_counterexample :
    (staleEntryA.ts : Int) < keepAfterI (3 + 1209600001) ∧
    staleEntryA ∈ updateTitlesBatchFromEvent (3 + 1209600001) (evTitleA 3) [staleEntryA] := by
  refine ⟨by decide, by decide⟩

/-- C3 (amended): when any `update()` runs, every stored entry whose ts is
older than the 14-day cut-off is absent afterwards *unless* the incoming
event itself reconstructs an identical entry (same normalized-title hash,
title, effective timestamp and platform — the appended record), since the
incoming event is appended regardless of its age; entries with ts inside
the window are kept: an entry with the same id survives, with a timestamp
at least as large. -/
theorem claim_C3_amended (now : Nat) (evt : Event) (s : List TitleEntry) :
    (∀ e ∈ s, (e.ts : Int) < keepAfterI now → e ≠ newTitleEntry now evt →
      e ∉ updateTitlesBatchFromEvent now evt s) ∧
    (∀ e ∈ s, keepAfterI now ≤ (e.ts : Int) →
      ∃ x ∈ updateTitlesBatchFromEvent now evt s, x.id = e.id ∧ e.ts ≤ x.ts) := by
  constructor
  · intro e _ hlt hne hmem
    rcases update_mem_characterize now evt s e hmem with h | h
    · exact absurd h (not_le.mpr hlt)
    · exact hne h
  · intro e he hts
    exact update_keeps_id now evt s he hts

/-- C3 (witness): at `now` = 1209600020 (cut-off 20), an update for title
`b` prunes the stale entry for `a` (ts = 3) and keeps the in-window entry
(ts = 25). -/
theorem claim_C3_witness :
    staleEntryA ∉ updateTitlesBatchFromEvent 1209600020 (evTitleB 22) [staleEntryA, keptEntry] ∧
    ∃ x ∈ updateTitlesBatchFromEvent 1209600020 (evTitleB 22) [staleEntryA, keptEntry],
      x.id = keptEntry.id ∧ keptEntry.ts ≤ x.ts :=
  ⟨(claim_C3_amended 1209600020 (evTitleB 22) [staleEntryA, keptEntry]).1 staleEntryA
      (by decide) (by decide) (by decide),
   (claim_C3_amended 1209600020 (evTitleB 22) [staleEntryA, keptEntry]).2 keptEntry
      (by decide) (by decide)⟩

/-! ### C1 — dedup with maximum timestamp -/

theorem runQueue_singleton (N : List Char) (hN : N ≠ []) :
    ∀ (calls : List (Nat × Event)) (x0 : TitleEntry),
      x0.id = hashStr N →
      (∀ c ∈ calls, normalizeTitle c.2.title = N) →
      (∀ c ∈ calls, 0 < c.2.ts) →
      (∀ c ∈ calls, keepAfterI c.1 ≤ (x0.ts : Int)) →
      runTitlesQueue calls [x0] =
        [{ x0 with ts := calls.foldl (fun a c => max a c.2.ts) x0.ts }] := by
  intro calls
  induction calls with
  | nil =>
    intro x0 _ _ _ _
    simp [runTitlesQueue]
  | cons c rest ih =>
    intro x0 hid hnorm hpos hwin
    have hnormc := hnorm c (List.mem_cons_self c rest)
    have hposc := hpos c (List.mem_cons_self c rest)
    have hwinc := hwin c (List.mem_cons_self c rest)
    have hhead : updateTitlesBatchFromEvent c.1 c.2 [x0] =
        [{ x0 with ts := max x0.ts c.2.ts }] := by
      have hfil : List.filter (fun z => decide (keepAfterI c.1 ≤ (z.ts : Int))) [x0] = [x0] := by
        simp [hwinc]
      have hrefresh : refreshTs (jsOrNat c.2.ts c.1) (hashStr N) [x0] =
          ([{ x0 with ts := max x0.ts c.2.ts }], true) := by
        simp [refreshTs, hid, jsOrNat_zero, jsOrNat_pos hposc]
      simp [updateTitlesBatchFromEvent, hnormc, hN, hfil, hrefresh]
    have hstep : runTitlesQueue (c :: rest) [x0] =
        runTitlesQueue rest (updateTitlesBatchFromEvent c.1 c.2 [x0]) := rfl
    rw [hstep, hhead]
    rw [ih { x0 with ts := max x0.ts c.2.ts } hid
      (fun c' hc' => hnorm c' (List.mem_cons_of_mem c hc'))
      (fun c' hc' => hpos c' (List.mem_cons_of_mem c hc'))
      (fun c' hc' => le_trans (hwin c' (List.mem_cons_of_mem c hc'))
        (by exact_mod_cast le_max_left x0.ts c.2.ts))]
    rfl

/-- C1 (counterexample): the claim fails as stated on two counts.  First, a
single sighting whose title normalizes to the empty string leaves *no* entry
keyed by the hash of that normalized string.  Second, with retention in
play the surviving entry's ts need not be the maximum sighting timestamp: a
future-dated sighting of `a` (ts = 2000000000) followed — more than 14 days
later — by a sighting with ts = 7 yields a single entry with ts = 7, not the
maximum 2000000000, because the first entry was pruned and the title
re-appended. -/
theorem claim_C1_counterexample :
    ((runTitlesQueue [(5, quoteEvt)] []).filter
        (fun y => decide (y.id = hashStr (normalizeTitle quoteEvt.title)))) = [] ∧
    ((runTitlesQueue c1RetentionCalls []).filter
        (fun y => decide (y.id = hashStr (normalizeTitle "a".data)))).map
          (fun y => y.ts) = [7] ∧
    maxTsOfCalls c1RetentionCalls = 2000000000 := by
  refine ⟨by decide, by decide, by decide⟩

/-- C1 (amended): for any nonempty sequence of queued `update()` calls,
starting from an empty store, whose events' titles all normalize to the same
*non-empty* string, with every event timestamp positive and within the
14-day retention window of every call's current time, the resulting
`titles_batch` contains exactly one entry whose id is the hash of the
normalized string, and that entry's ts is the maximum timestamp among the
sightings. -/
theorem claim_C1_amended
    (calls : List (Nat × Event)) (N : List Char)
    (hcalls : calls ≠ []) (hN : N ≠ [])
    (hnorm : ∀ c ∈ calls, normalizeTitle c.2.title = N)
    (hpos : ∀ c ∈ calls, 0 < c.2.ts)
    (hwin : ∀ c ∈ calls, ∀ c' ∈ calls, keepAfterI c'.1 ≤ (c.2.ts : Int)) :
    ∃ x, (runTitlesQueue calls []).filter (fun y => decide (y.id = hashStr N)) = [x] ∧
      x.ts = maxTsOfCalls calls := by
  cases calls with
  | nil => exact absurd rfl hcalls
  | cons c rest =>
    have hnormc := hnorm c (List.mem_cons_self c rest)
    have hposc := hpos c (List.mem_cons_self c rest)
    have hhead : updateTitlesBatchFromEvent c.1 c.2 [] =
        [{ id := hashStr N, title := c.2.title, ts := c.2.ts,
           platform := jsOrStr c.2.platform "youtube" }] := by
      simp [updateTitlesBatchFromEvent, hnormc, hN, refreshTs, newTitleEntry,
        jsOrNat_pos hposc]
    have hstep : runTitlesQueue (c :: rest) [] =
        runTitlesQueue rest (updateTitlesBatchFromEvent c.1 c.2 []) := rfl
    have hrun := runQueue_singleton N hN rest
      { id := hashStr N, title := c.2.title, ts := c.2.ts,
        platform := jsOrStr c.2.platform "youtube" }
      rfl
      (fun c' hc' => hnorm c' (List.mem_cons_of_mem c hc'))
      (fun c' hc' => hpos c' (List.mem_cons_of_mem c hc'))
      (fun c' hc' => hwin c (List.mem_cons_self c rest) c' (List.mem_cons_of_mem c hc'))
    refine ⟨{ id := hashStr N, title := c.2.title,
              ts := rest.foldl (fun a c' => max a c'.2.ts) c.2.ts,
              platform := jsOrStr c.2.platform "youtube" }, ?_, ?_⟩
    · rw [hstep, hhead, hrun]
      simp
    · show _ = maxTsOfCalls (c :: rest)
      unfold maxTsOfCalls
      rw [List.foldl_cons]
      rw [Nat.zero_max]

/-- C1 (witness): two sightings of title `a` at timestamps 10 and 20. -/
theorem claim_C1_witness :
    ∃ x, ((runTitlesQueue [(10, evTitleA 10), (20, evTitleA 20)] []).filter
        (fun y => decide (y.id = hashStr "a".data))) = [x] ∧
      x.ts = maxTsOfCalls [(10, evTitleA 10), (20, evTitleA 20)] :=
  claim_C1_amended [(10, evTitleA 10), (20, evTitleA 20)] "a".data
    (by decide) (by decide) (by decide) (by decide) (by decide)

/-! ### C4 — archive bound and order -/

theorem take_cons_take_AM (x : StoredPiece) (l : List StoredPiece) :
    (x :: l.take ARCHIVE_MAX).take ARCHIVE_MAX = (x :: l).take ARCHIVE_MAX := by
  have h : ARCHIVE_MAX = 364 + 1 := rfl
  rw [h, List.take_succ_cons, List.take_succ_cons, List.take_take]
  norm_num

theorem appendAll_take (today : String) :
    ∀ (ps : List RawPiece) (l : List StoredPiece),
      ps.foldl (fun a p => appendPieceCore today p a) (l.take ARCHIVE_MAX) =
        ((ps.map (mkStoredPiece today)).reverse ++ l).take ARCHIVE_MAX := by
  intro ps
  induction ps with
  | nil => intro l; simp
  | cons p ps ih =>
    intro l
    rw [List.foldl_cons]
    have h1 : appendPieceCore today p (l.take ARCHIVE_MAX) =
        (mkStoredPiece today p :: l).take ARCHIVE_MAX := by
      unfold appendPieceCore
      exact take_cons_take_AM _ _
    rw [h1, ih (mkStoredPiece today p :: l)]
    simp [List.reverse_cons, List.append_assoc]

theorem appendAll_eq (today : String) (ps : List RawPiece) :
    appendAll today ps = ((ps.map (mkStoredPiece today)).reverse).take ARCHIVE_MAX := by
  have h := appendAll_take today ps []
  simpa [appendAll] using h

theorem normImgOnRead_mk (today : String) (p : RawPiece) :
    normImgOnRead (mkStoredPiece today p) = mkStoredPiece today p := by
  by_cases h : jsOrOpt p.image_url (jsOrOpt p.imageUrl "") = ""
  · simp [normImgOnRead, mkStoredPiece, jsOrStr, h]
  · simp [normImgOnRead, mkStoredPiece, jsOrStr, h]

/-- C4: after appending `N > 365` pieces to an empty archive, `list()`
returns the newest-first sequence of stored pieces truncated to exactly 365
entries — each append inserts at index 0, and the dropped entries are
exactly the oldest ones beyond the cap (the `take` of the reversed append
order). -/
theorem claim_C4_archive_bound (today : String) (ps : List RawPiece)
    (h : 365 < ps.length) :
    getArchiveView (appendAll today ps) =
      ((ps.map (mkStoredPiece today)).reverse).take ARCHIVE_MAX ∧
    (getArchiveView (appendAll today ps)).length = 365 := by
  have he := appendAll_eq today ps
  have hview : getArchiveView (((ps.map (mkStoredPiece today)).reverse).take ARCHIVE_MAX) =
      ((ps.map (mkStoredPiece today)).reverse).take ARCHIVE_MAX := by
    unfold getArchiveView
    rw [List.map_take, List.map_reverse, List.map_map]
    have hcomp : normImgOnRead ∘ mkStoredPiece today = mkStoredPiece today :=
      funext (normImgOnRead_mk today)
    rw [hcomp]
  constructor
  · rw [he, hview]
  · rw [he, hview, List.length_take, List.length_reverse, List.length_map]
    simp only [ARCHIVE_MAX]
    omega

/-- C4 (witness): 366 appends of a sample piece. -/
theorem claim_C4_witness :
    getArchiveView (appendAll "2025/01/02" (List.replicate 366 samplePiece)) =
      (((List.replicate 366 samplePiece).map
          (mkStoredPiece "2025/01/02")).reverse).take ARCHIVE_MAX ∧
    (getArchiveView (appendAll "2025/01/02" (List.replicate 366 samplePiece))).length = 365 :=
  claim_C4_archive_bound "2025/01/02" (List.replicate 366 samplePiece) (by decide)

/-! ### C5 — router error containment -/

/-- C5: for every message in the dispatch vocabulary, any payload, any
store state and any storage-failure behaviour, if the dispatched handler
body rejects with message `e`, the listener's `catch` converts it into the
response `{ ok: false, error: e }`.  (That no exception propagates out of
the listener is reflected in `handleMessage` being a total function.) -/
theorem claim_C5_router_catches
    (f : Faults) (now : Nat) (today : String) (m : Msg) (st : Store) (e : String)
    (_hv : inVocabulary m = true)
    (herr : (handleBody f now today m st).1 = Except.error e) :
    (handleMessage f now today m st).1 =
      some { ok := false, data := none, error := some e, stored := none } := by
  unfold handleMessage
  rcases hb : handleBody f now today m st with ⟨r, st'⟩
  rw [hb] at herr
  cases r with
  | ok v => exact Except.noConfusion herr
  | error e' =>
    injection herr with he
    rw [he]

/-- C5 (witness): a `GET_TITLES` dispatch whose storage read rejects with
`boom` yields `{ ok: false, error: "boom" }`. -/
theorem claim_C5_witness :
    (handleMessage faultyGet 5 "2025/01/02" Msg.getTitles emptyStore).1 =
      some { ok := false, data := none, error := some "boom", stored := none } :=
  claim_C5_router_catches faultyGet 5 "2025/01/02" Msg.getTitles emptyStore "boom"
    rfl rfl

/-! ### C8 — sync-stamp frame -/

theorem preservesSync_mret {α : Type} (a : α) : PreservesSync (mret a) :=
  fun _ => rfl

theorem preservesSync_mbind {α β : Type} {m : StoreM α} {k : α → StoreM β}
    (hm : PreservesSync m) (hk : ∀ a, PreservesSync (k a)) :
    PreservesSync (mbind m k) := by
  intro st
  unfold mbind
  rcases hms : m st with ⟨r, st'⟩
  have hst' : st'.last_webapp_sync_at = st.last_webapp_sync_at := by
    have h := hm st
    rw [hms] at h
    exact h
  cases r with
  | ok a =>
    show ((k a st').2).last_webapp_sync_at = st.last_webapp_sync_at
    rw [hk a st']
    exact hst'
  | error e => exact hst'

theorem preservesSync_mcatch {m : StoreM Unit} (hm : PreservesSync m) :
    PreservesSync (mcatchUnit m) := by
  intro st
  unfold mcatchUnit
  rcases hms : m st with ⟨r, st'⟩
  have h := hm st
  rw [hms] at h
  cases r <;> exact h

theorem preservesSync_pGet {α : Type} (f : Faults) (read : Store → α) :
    PreservesSync (pGet f read) := by
  intro st
  unfold pGet
  cases f.storageGet <;> rfl

theorem preservesSync_pSet (f : Faults) {w : Store → Store}
    (hw : ∀ st : Store, (w st).last_webapp_sync_at = st.last_webapp_sync_at) :
    PreservesSync (pSet f w) := by
  intro st
  unfold pSet
  cases f.storageSet with
  | none => exact hw st
  | some e => rfl

theorem preservesSync_pDbAdd (f : Faults) (evt : Event) :
    PreservesSync (pDbAdd f evt) := by
  intro st
  unfold pDbAdd
  cases f.dbAdd <;> rfl

theorem preservesSync_pDbRead (f : Faults) : PreservesSync (pDbRead f) := by
  intro st
  unfold pDbRead
  cases f.dbRead <;> rfl

theorem preservesSync_pDbClear (f : Faults) : PreservesSync (pDbClear f) := by
  intro st
  unfold pDbClear
  cases f.dbClear <;> rfl

theorem preservesSync_titlesUpdateOp (f : Faults) (now : Nat) (evt : Event) :
    PreservesSync (titlesUpdateOp f now evt) :=
  preservesSync_mbind (preservesSync_pGet f _)
    (fun _ => preservesSync_pSet f (fun _ => rfl))

theorem preservesSync_ackTitlesOp (f : Faults) (ids : List String) :
    PreservesSync (ackTitlesOp f ids) := by
  unfold ackTitlesOp
  split
  · exact preservesSync_mret _
  · refine preservesSync_mbind (preservesSync_pGet f _) (fun tb => ?_)
    split
    · exact preservesSync_mret _
    · exact preservesSync_pSet f (fun _ => rfl)

/-- C8 (counterexample): `CLEAR_PROFILE_ARCHIVE` also stamps
`last_webapp_sync_at` (`clearProfileAndArchive` writes
`last_webapp_sync_at: Date.now()`), so the claim that only `SET_PROFILE`
and `APPEND_PIECE` write it is false: dispatching it over a store whose
stamp is 5 changes the stamp. -/
theorem claim_C8_counterexample :
    (handleMessage noFaults 99 "2025/01/02" Msg.clearProfileArchive
        stSync5).2.last_webapp_sync_at ≠ stSync5.last_webapp_sync_at := by
  decide

/-- C8 (amended): `last_webapp_sync_at` is written only as a side effect of
`SET_PROFILE`, `APPEND_PIECE` and `CLEAR_PROFILE_ARCHIVE`; every other
message leaves it unchanged, whatever the store state and whatever the
storage primitives do. -/
theorem claim_C8_amended (f : Faults) (now : Nat) (today : String) (m : Msg) (st : Store)
    (h : writesSyncStamp m = false) :
    (handleMessage f now today m st).2.last_webapp_sync_at = st.last_webapp_sync_at := by
  have hbody : PreservesSync (handleBody f now today m) := by
    cases m with
    | lclAddEvent p =>
      cases hs : sanitizeEvent now p with
      | some compact =>
        have hred : handleBody f now today (Msg.lclAddEvent p) =
            mbind (pDbAdd f compact) (fun _ =>
              mbind (mcatchUnit (titlesUpdateOp f now compact)) (fun _ =>
              mret (some { ok := true, data := none, error := none, stored := some true }))) := by
          simp [handleBody, hs]
        rw [hred]
        exact preservesSync_mbind (preservesSync_pDbAdd f compact) (fun _ =>
          preservesSync_mbind (preservesSync_mcatch (preservesSync_titlesUpdateOp f now compact))
            (fun _ => preservesSync_mret _))
      | none =>
        have hred : handleBody f now today (Msg.lclAddEvent p) =
            mret (some { ok := true, data := none, error := none, stored := some false }) := by
          simp [handleBody, hs]
        rw [hred]
        exact preservesSync_mret _
    | lclGetRecent lim =>
      exact preservesSync_mbind (preservesSync_pDbRead f) (fun _ => preservesSync_mret _)
    | lclClear =>
      exact preservesSync_mbind (preservesSync_pDbClear f) (fun _ => preservesSync_mret _)
    | getTitles =>
      exact preservesSync_mbind (preservesSync_pGet f _) (fun _ => preservesSync_mret _)
    | ackTitles ids =>
      exact preservesSync_mbind (preservesSync_ackTitlesOp f ids) (fun _ => preservesSync_mret _)
    | clearTitles =>
      exact preservesSync_mbind (preservesSync_pSet f (fun _ => rfl))
        (fun _ => preservesSync_mret _)
    | setProfile profile => simp [writesSyncStamp] at h
    | getProfile =>
      exact preservesSync_mbind (preservesSync_pGet f _) (fun _ => preservesSync_mret _)
    | appendPiece piece => simp [writesSyncStamp] at h
    | getArchive =>
      exact preservesSync_mbind (preservesSync_pGet f _) (fun _ => preservesSync_mret _)
    | getStatus =>
      exact preservesSync_mbind (preservesSync_pGet f _) (fun _ => preservesSync_mret _)
    | clearProfileArchive => simp [writesSyncStamp] at h
    | other s => exact preservesSync_mret _
  have hmsg : (handleMessage f now today m st).2 = (handleBody f now today m st).2 := by
    unfold handleMessage
    rcases hb : handleBody f now today m st with ⟨r, st'⟩
    cases r <;> rfl
  rw [hmsg]
  exact hbody st

/-- C8 (witness): a `GET_TITLES` dispatch leaves the stamp unchanged. -/
theorem claim_C8_witness :
    (handleMessage noFaults 99 "2025/01/02" Msg.getTitles stSync5).2.last_webapp_sync_at =
      stSync5.last_webapp_sync_at :=
  claim_C8_amended noFaults 99 "2025/01/02" Msg.getTitles stSync5 rfl

end Thyself
